import Mathlib

/-!
Verification development for the AWS FinOps Dashboard core
(`app/resilience.py`, `app/cache.py`, `app/org_accounts.py`,
`app/aws_session.py`, `app/finops.py`, `app/anomaly_detection.py`).

The Python modules are shallowly embedded: every stateful class becomes a
structure with explicit state passing, the monotonic clock becomes an
explicit `now : ℚ` argument (a `time.sleep` advances the clock by exactly
the slept duration in the deterministic-time model, or by at least it where
stated), and exceptions become `Except`/`Option` results.  Float arithmetic
is modelled over `ℚ` (exact) except where the source takes a real square
root, which is modelled over `ℝ`.
-/

namespace FinOps

/-! ## resilience.py : RateLimiter

`RateLimiter.__init__` clamps the configured rate with `max(1, rate)`,
sets `capacity = float(rate)`, starts with a full bucket and remembers the
current monotonic timestamp. -/

structure RateLimiter where
  rate : ℕ
  capacity : ℚ
  tokens : ℚ
  timestamp : ℚ
  deriving Repr, DecidableEq

def RateLimiter.init (rate : ℤ) (now : ℚ) : RateLimiter :=
  let r : ℕ := (max 1 rate).toNat
  { rate := r, capacity := (r : ℚ), tokens := (r : ℚ), timestamp := now }

/-- The refill line of `RateLimiter.acquire`:
`tokens = min(capacity, tokens + elapsed * rate)`. -/
def RateLimiter.refill (rl : RateLimiter) (now : ℚ) : ℚ :=
  min rl.capacity (rl.tokens + (now - rl.timestamp) * rl.rate)

/-- `RateLimiter.acquire` (`resilience.py` lines 35-50): refill the bucket;
if fewer than one token is available, sleep `(1 - tokens)/rate`, refill
again with the elapsed sleep time, and finally consume one token.  Returns
the updated limiter and the slept duration (0 when no wait was needed).
Time is deterministic: the clock after the sleep reads `now + sleep_for`. -/
def RateLimiter.acquire (rl : RateLimiter) (now : ℚ) : RateLimiter × ℚ :=
  let tokens1 := rl.refill now
  if tokens1 < 1 then
    let sleep_for := (1 - tokens1) / rl.rate
    let now2 := now + sleep_for
    let tokens2 := min rl.capacity (tokens1 + (now2 - now) * rl.rate)
    ({ rl with tokens := tokens2 - 1, timestamp := now2 }, sleep_for)
  else
    ({ rl with tokens := tokens1 - 1, timestamp := now }, 0)

/-! ## resilience.py : CircuitBreaker -/

structure CircuitState where
  failures : ℕ
  opened_at : Option ℚ
  half_open : Bool
  deriving Repr, DecidableEq

def CircuitState.initial : CircuitState :=
  { failures := 0, opened_at := none, half_open := false }

structure CircuitBreaker where
  fail_threshold : ℕ
  reset_seconds : ℕ
  state : CircuitState
  deriving Repr, DecidableEq

def CircuitBreaker.init (fail_threshold reset_seconds : ℤ) : CircuitBreaker :=
  { fail_threshold := (max 1 fail_threshold).toNat,
    reset_seconds := (max 1 reset_seconds).toNat,
    state := CircuitState.initial }

/-- `CircuitBreaker.allow` (`resilience.py` lines 83-93): closed breakers
always admit; an open breaker admits (and flips to half-open) exactly when
`now - opened_at >= reset_seconds`. -/
def CircuitBreaker.allow (cb : CircuitBreaker) (now : ℚ) : Bool × CircuitBreaker :=
  match cb.state.opened_at with
  | none => (true, cb)
  | some t =>
    if (cb.reset_seconds : ℚ) ≤ now - t then
      (true, { cb with state := { cb.state with half_open := true } })
    else
      (false, cb)

/-- `CircuitBreaker.record_success`: reset the whole state. -/
def CircuitBreaker.record_success (cb : CircuitBreaker) : CircuitBreaker :=
  { cb with state := CircuitState.initial }

/-- `CircuitBreaker.record_failure` (`resilience.py` lines 99-107): a
half-open breaker reopens immediately with `failures = fail_threshold` and
a fresh timer; otherwise the failure counter is incremented and the breaker
opens when the counter reaches the threshold while still closed. -/
def CircuitBreaker.record_failure (cb : CircuitBreaker) (now : ℚ) : CircuitBreaker :=
  if cb.state.half_open then
    { cb with state := { failures := cb.fail_threshold, opened_at := some now, half_open := false } }
  else
    let f := cb.state.failures + 1
    let oa := if cb.fail_threshold ≤ f ∧ cb.state.opened_at = none then some now else cb.state.opened_at
    { cb with state := { failures := f, opened_at := oa, half_open := cb.state.half_open } }

/-- Fold a list of failure times through `record_failure`. -/
def CircuitBreaker.recordFailures (cb : CircuitBreaker) (times : List ℚ) : CircuitBreaker :=
  times.foldl CircuitBreaker.record_failure cb

/-- Fold a list of acquire times through `RateLimiter.acquire`. -/
def RateLimiter.acquireSeq (rl : RateLimiter) (times : List ℚ) : RateLimiter :=
  times.foldl (fun r t => (r.acquire t).1) rl

lemma RateLimiter.acquire_of_lt (rl : RateLimiter) (now : ℚ) (h : rl.refill now < 1) :
    rl.acquire now = ({ rl with
        tokens := min rl.capacity
          (rl.refill now + ((now + (1 - rl.refill now) / rl.rate) - now) * rl.rate) - 1,
        timestamp := now + (1 - rl.refill now) / rl.rate }, (1 - rl.refill now) / rl.rate) := by
  simp only [RateLimiter.acquire]
  rw [if_pos h]

lemma RateLimiter.acquire_of_ge (rl : RateLimiter) (now : ℚ) (h : ¬ rl.refill now < 1) :
    rl.acquire now = ({ rl with tokens := rl.refill now - 1, timestamp := now }, 0) := by
  simp only [RateLimiter.acquire]
  rw [if_neg h]

lemma RateLimiter.acquire_rate (rl : RateLimiter) (now : ℚ) :
    (rl.acquire now).1.rate = rl.rate := by
  by_cases h : rl.refill now < 1
  · rw [rl.acquire_of_lt now h]
  · rw [rl.acquire_of_ge now h]

lemma RateLimiter.acquire_capacity (rl : RateLimiter) (now : ℚ) :
    (rl.acquire now).1.capacity = rl.capacity := by
  by_cases h : rl.refill now < 1
  · rw [rl.acquire_of_lt now h]
  · rw [rl.acquire_of_ge now h]

/-- After the deficit sleep the refilled count is exactly one token. -/
lemma RateLimiter.post_sleep_refill (rl : RateLimiter) (now : ℚ)
    (hcap : rl.capacity = (rl.rate : ℚ)) (hrate : 1 ≤ rl.rate) :
    min rl.capacity (rl.refill now + ((now + (1 - rl.refill now) / rl.rate) - now) * rl.rate) = 1 := by
  have hcap1 : (1 : ℚ) ≤ rl.capacity := by
    rw [hcap]; exact_mod_cast hrate
  have hrne : ((rl.rate : ℚ)) ≠ 0 := by
    have : (0 : ℚ) < (rl.rate : ℚ) := by exact_mod_cast Nat.lt_of_lt_of_le Nat.zero_lt_one hrate
    exact ne_of_gt this
  have hsimp : rl.refill now + ((now + (1 - rl.refill now) / rl.rate) - now) * rl.rate = 1 := by
    field_simp
    ring
  rw [hsimp, min_eq_right hcap1]

lemma RateLimiter.acquire_tokens_bounds (rl : RateLimiter) (now : ℚ)
    (hcap : rl.capacity = (rl.rate : ℚ)) (hrate : 1 ≤ rl.rate) :
    0 ≤ (rl.acquire now).1.tokens ∧ (rl.acquire now).1.tokens ≤ (rl.acquire now).1.capacity := by
  have hcap1 : (1 : ℚ) ≤ rl.capacity := by
    rw [hcap]; exact_mod_cast hrate
  by_cases h : rl.refill now < 1
  · rw [rl.acquire_of_lt now h]
    simp only [rl.post_sleep_refill now hcap hrate, sub_self]
    exact ⟨le_refl 0, by linarith⟩
  · rw [rl.acquire_of_ge now h]
    push_neg at h
    have hle : rl.refill now ≤ rl.capacity := min_le_left _ _
    constructor
    · show (0 : ℚ) ≤ rl.refill now - 1
      linarith
    · show rl.refill now - 1 ≤ rl.capacity
      linarith

/-- C9.  Rate limiter token invariant (`resilience.py` lines 23-50): the
token count stays within `[0, capacity]` at every observation point (at
construction and after any sequence of acquires); tokens accrue
continuously as `elapsed * rate` capped at `capacity`; and when fewer than
one token is available, `acquire` sleeps exactly the deficit time
`(1 - tokens) / rate`, re-checks the token count over the slept interval,
and only then consumes one token. -/
theorem C9_rate_limiter_token_invariant (rl : RateLimiter) (now : ℚ)
    (hcap : rl.capacity = (rl.rate : ℚ)) (hrate : 1 ≤ rl.rate) :
    (∀ (r : ℤ) (t : ℚ), 0 ≤ (RateLimiter.init r t).tokens ∧
        (RateLimiter.init r t).tokens ≤ (RateLimiter.init r t).capacity) ∧
    (∀ times : List ℚ, 0 ≤ (rl.acquireSeq times).tokens ∨ times = []) ∧
    (0 ≤ (rl.acquire now).1.tokens ∧ (rl.acquire now).1.tokens ≤ (rl.acquire now).1.capacity) ∧
    ((1 ≤ rl.refill now → (rl.acquire now).1.tokens = rl.refill now - 1 ∧ (rl.acquire now).2 = 0) ∧
     (rl.refill now < 1 →
        (rl.acquire now).2 = (1 - rl.refill now) / (rl.rate : ℚ) ∧
        (rl.acquire now).1.tokens =
          min rl.capacity (rl.refill now + (rl.acquire now).2 * (rl.rate : ℚ)) - 1 ∧
        (rl.acquire now).1.tokens = 0)) := by
  refine ⟨?_, ?_, rl.acquire_tokens_bounds now hcap hrate, ?_, ?_⟩
  · intro r t
    exact ⟨by simp [RateLimiter.init], by simp [RateLimiter.init]⟩
  · intro times
    induction times using List.reverseRecOn with
    | nil => right; rfl
    | append_singleton ts t ih =>
      left
      have hc : ∀ l : List ℚ, (rl.acquireSeq l).capacity = rl.capacity ∧
          (rl.acquireSeq l).rate = rl.rate := by
        intro l
        induction l using List.reverseRecOn with
        | nil => exact ⟨rfl, rfl⟩
        | append_singleton l' t' ih' =>
          unfold RateLimiter.acquireSeq at *
          rw [List.foldl_append]
          exact ⟨(RateLimiter.acquire_capacity _ _).trans ih'.1,
                 (RateLimiter.acquire_rate _ _).trans ih'.2⟩
      unfold RateLimiter.acquireSeq at *
      rw [List.foldl_append]
      have hcs := hc ts
      exact (RateLimiter.acquire_tokens_bounds _ t
        (by rw [hcs.1, hcs.2, hcap]) (by rw [hcs.2]; exact hrate)).1
  · intro h1
    rw [rl.acquire_of_ge now (by linarith)]
    exact ⟨rfl, rfl⟩
  · intro hlt
    rw [rl.acquire_of_lt now hlt]
    refine ⟨rfl, ?_, ?_⟩
    · simp only []
      congr 1
      congr 1
      ring
    · simp only [rl.post_sleep_refill now hcap hrate, sub_self]

/-- Witness for C9 at a concrete limiter (`rate = 5`, full bucket at time 0,
acquire at time 1). -/
theorem C9_witness :
    0 ≤ ((RateLimiter.mk 5 5 5 0).acquire 1).1.tokens ∧
    ((RateLimiter.mk 5 5 5 0).acquire 1).1.tokens ≤
      ((RateLimiter.mk 5 5 5 0).acquire 1).1.capacity :=
  (C9_rate_limiter_token_invariant ⟨5, 5, 5, 0⟩ 1 (by decide) (by decide)).2.2.1

/-! ## Circuit breaker cycle (claim C1) -/

lemma CircuitBreaker.allow_of_closed (cb : CircuitBreaker) (t : ℚ)
    (h : cb.state.opened_at = none) : cb.allow t = (true, cb) := by
  simp only [CircuitBreaker.allow, h]

lemma CircuitBreaker.allow_of_open_early (cb : CircuitBreaker) (T t : ℚ)
    (h : cb.state.opened_at = some T) (hlt : t - T < (cb.reset_seconds : ℚ)) :
    cb.allow t = (false, cb) := by
  simp only [CircuitBreaker.allow, h]
  rw [if_neg (not_le.mpr hlt)]

lemma CircuitBreaker.allow_of_open_elapsed (cb : CircuitBreaker) (T t : ℚ)
    (h : cb.state.opened_at = some T) (hge : (cb.reset_seconds : ℚ) ≤ t - T) :
    cb.allow t = (true, { cb with state := { cb.state with half_open := true } }) := by
  simp only [CircuitBreaker.allow, h]
  rw [if_pos hge]

lemma CircuitBreaker.record_failure_of_half_open (cb : CircuitBreaker) (now : ℚ)
    (h : cb.state.half_open = true) :
    cb.record_failure now
      = { cb with state := ⟨cb.fail_threshold, some now, false⟩ } := by
  simp only [CircuitBreaker.record_failure, h]
  rw [if_pos trivial]

lemma CircuitBreaker.record_failure_of_below (cb : CircuitBreaker) (now : ℚ)
    (h : cb.state.half_open = false)
    (h2 : ¬ (cb.fail_threshold ≤ cb.state.failures + 1 ∧ cb.state.opened_at = none)) :
    cb.record_failure now
      = { cb with state :=
            ⟨cb.state.failures + 1, cb.state.opened_at, cb.state.half_open⟩ } := by
  simp only [CircuitBreaker.record_failure, h]
  rw [if_neg (by exact Bool.false_ne_true)]
  rw [if_neg h2]

lemma CircuitBreaker.record_failure_of_trip (cb : CircuitBreaker) (now : ℚ)
    (h : cb.state.half_open = false)
    (h2 : cb.fail_threshold ≤ cb.state.failures + 1 ∧ cb.state.opened_at = none) :
    cb.record_failure now
      = { cb with state :=
            ⟨cb.state.failures + 1, some now, cb.state.half_open⟩ } := by
  simp only [CircuitBreaker.record_failure, h]
  rw [if_neg (by exact Bool.false_ne_true)]
  rw [if_pos h2]

/-- Failures recorded while closed and strictly below the threshold only
increment the counter. -/
lemma CircuitBreaker.recordFailures_below_threshold (ft rs f : ℕ) (ts : List ℚ)
    (hlt : f + ts.length < ft) :
    CircuitBreaker.recordFailures ⟨ft, rs, ⟨f, none, false⟩⟩ ts
      = ⟨ft, rs, ⟨f + ts.length, none, false⟩⟩ := by
  induction ts generalizing f with
  | nil => rfl
  | cons t ts ih =>
    have hstep : CircuitBreaker.record_failure ⟨ft, rs, ⟨f, none, false⟩⟩ t
        = ⟨ft, rs, ⟨f + 1, none, false⟩⟩ :=
      CircuitBreaker.record_failure_of_below _ t rfl
        (by
          simp only [List.length_cons] at hlt
          intro hc
          exact absurd hc.1 (by show ¬ ft ≤ f + 1; omega))
    unfold CircuitBreaker.recordFailures at *
    rw [List.foldl_cons, hstep, ih (f + 1)
      (by simp only [List.length_cons] at hlt; omega)]
    congr 2
    simp only [List.length_cons]
    omega

/-- C1.  Circuit breaker cycle (`resilience.py` lines 70-115): starting
from the closed initial state, `fail_threshold` consecutive recorded
failures open the breaker with `opened_at` equal to the last failure time
`T`; `allow` then returns `false` (leaving the state unchanged) as long as
less than `reset_seconds` has elapsed since `T`, and returns `true`
(half-open) once `reset_seconds` has elapsed; from half-open, a recorded
success resets to the closed state with the failure counter at 0, and a
recorded failure at time `t'` reopens with a fresh timer `opened_at = t'`,
after which `allow` again refuses every call made before `t' +
reset_seconds` (so exactly one probe is admitted per reset window). -/
theorem C1_circuit_breaker_cycle (ft rs : ℕ) (hft : 1 ≤ ft) (ts : List ℚ) (T : ℚ)
    (hlen : ts.length = ft) (hT : ts.getLast? = some T) :
    let cb0 : CircuitBreaker := ⟨ft, rs, CircuitState.initial⟩
    let cbOpen := cb0.recordFailures ts
    cbOpen.state = ⟨ft, some T, false⟩ ∧
    (∀ t : ℚ, t - T < rs → cbOpen.allow t = (false, cbOpen)) ∧
    (∀ t : ℚ, (rs : ℚ) ≤ t - T →
      (cbOpen.allow t).1 = true ∧
      (cbOpen.allow t).2.state = ⟨ft, some T, true⟩ ∧
      ((cbOpen.allow t).2.record_success.state = CircuitState.initial ∧
        (cbOpen.allow t).2.record_success.state.failures = 0) ∧
      (∀ t' : ℚ, ((cbOpen.allow t).2.record_failure t').state = ⟨ft, some t', false⟩ ∧
        ∀ t'' : ℚ, t'' - t' < rs →
          (((cbOpen.allow t).2.record_failure t').allow t'').1 = false)) := by
  intro cb0 cbOpen
  have hne : ts ≠ [] := by
    intro h
    rw [h] at hlen
    simp only [List.length_nil] at hlen
    omega
  have hopen : cbOpen = ⟨ft, rs, ⟨ft, some T, false⟩⟩ := by
    have hsplit : ts = ts.dropLast ++ [ts.getLast hne] := (List.dropLast_append_getLast hne).symm
    have hTeq : ts.getLast hne = T := by
      have h' := List.getLast?_eq_getLast ts hne
      rw [h'] at hT
      exact Option.some_injective _ hT
    have hdrop : ts.dropLast.length = ft - 1 := by
      rw [List.length_dropLast, hlen]
    show cb0.recordFailures ts = _
    rw [hsplit]
    unfold CircuitBreaker.recordFailures
    rw [List.foldl_append]
    have h1 : cb0.recordFailures ts.dropLast = ⟨ft, rs, ⟨ft - 1, none, false⟩⟩ := by
      have h2 := CircuitBreaker.recordFailures_below_threshold ft rs 0 ts.dropLast
        (by rw [hdrop]; omega)
      rw [hdrop] at h2
      show cb0.recordFailures ts.dropLast = _
      have hcb0 : cb0 = ⟨ft, rs, ⟨0, none, false⟩⟩ := rfl
      rw [hcb0, h2]
      congr 2
      omega
    unfold CircuitBreaker.recordFailures at h1
    rw [h1, List.foldl_cons, List.foldl_nil, hTeq]
    rw [CircuitBreaker.record_failure_of_trip _ T rfl ⟨by show ft ≤ ft - 1 + 1; omega, rfl⟩]
    congr 2
    show ft - 1 + 1 = ft
    omega
  have hoa : cbOpen.state.opened_at = some T := by rw [hopen]
  have hrs : (cbOpen.reset_seconds : ℚ) = (rs : ℚ) := by rw [hopen]
  refine ⟨by rw [hopen], ?_, ?_⟩
  · intro t h
    exact cbOpen.allow_of_open_early T t hoa (by rw [hrs]; exact h)
  · intro t h
    rw [cbOpen.allow_of_open_elapsed T t hoa (by rw [hrs]; exact h)]
    have hhalf : ({ cbOpen with
        state := { cbOpen.state with half_open := true } } : CircuitBreaker)
        = ⟨ft, rs, ⟨ft, some T, true⟩⟩ := by rw [hopen]
    rw [hhalf]
    refine ⟨rfl, rfl, ⟨rfl, rfl⟩, ?_⟩
    intro t'
    rw [CircuitBreaker.record_failure_of_half_open _ t' rfl]
    refine ⟨rfl, ?_⟩
    intro t'' h''
    rw [CircuitBreaker.allow_of_open_early _ t' t'' rfl (by exact_mod_cast h'')]

/-- Witness for C1: threshold 2, reset 30 seconds, failures at times 0 and
5, probe admitted at time 40. -/
theorem C1_witness :
    ((CircuitBreaker.recordFailures ⟨2, 30, CircuitState.initial⟩ [0, 5]).allow 40).1 = true :=
  ((C1_circuit_breaker_cycle 2 30 (by decide) [0, 5] 5 (by decide) (by decide)).2.2
    40 (by norm_num)).1

/-! ## cache.py : CacheEntry and InMemoryCache

Python values are modelled as `Option V`: `none` is Python's `None`, which
doubles as the cache-miss sentinel exactly as in the source. -/

structure CacheEntry (V : Type) where
  value : Option V
  created_at : ℚ
  expires_at : Option ℚ
  deriving Repr, DecidableEq

/-- `CacheEntry.__init__`: `expires_at = now + ttl if ttl > 0 else inf`
(`none` models the float infinity). -/
def CacheEntry.make (v : Option V) (ttl now : ℚ) : CacheEntry V :=
  { value := v, created_at := now,
    expires_at := if 0 < ttl then some (now + ttl) else none }

/-- `CacheEntry.expired`: `time.time() >= expires_at`. -/
def CacheEntry.expired (e : CacheEntry V) (now : ℚ) : Bool :=
  match e.expires_at with
  | none => false
  | some t => t ≤ now

structure InMemoryCache (V : Type) where
  data : List (String × CacheEntry V)
  max : ℕ
  deriving Repr, DecidableEq

/-- `InMemoryCache.get` (`cache.py` lines 53-61): missing key is a miss;
an expired entry is popped and reported as a miss; otherwise the stored
value (itself possibly `None`) is returned. -/
def InMemoryCache.get (c : InMemoryCache V) (key : String) (now : ℚ) :
    Option V × InMemoryCache V :=
  match c.data.find? (fun kv => kv.1 == key) with
  | none => (none, c)
  | some kv =>
    if kv.2.expired now then
      (none, { c with data := c.data.eraseP (fun kv' => kv'.1 == key) })
    else
      (kv.2.value, c)

/-- One comparison step of Python's
`min(data.items(), key=lambda kv: kv[1].created_at)`. -/
def oldestStep (acc : Option (String × CacheEntry V)) (kv : String × CacheEntry V) :
    Option (String × CacheEntry V) :=
  match acc with
  | none => some kv
  | some best => if kv.2.created_at < best.2.created_at then some kv else some best

/-- Python's `min(data.items(), key=lambda kv: kv[1].created_at)`: the
first entry attaining the minimal insertion time (`min` keeps the earliest
of ties in iteration order). -/
def oldestEntry (data : List (String × CacheEntry V)) : Option (String × CacheEntry V) :=
  data.foldl oldestStep none

/-- Python dict assignment `data[key] = entry`: replace in place if the key
is bound, else append. -/
def assocSet : List (String × CacheEntry V) → String → CacheEntry V →
    List (String × CacheEntry V)
  | [], key, e => [(key, e)]
  | kv :: rest, key, e =>
    if kv.1 == key then (key, e) :: rest else kv :: assocSet rest key e

/-- `InMemoryCache.set` (`cache.py` lines 63-69): evict the oldest entry
when at capacity, then bind `key`.  Returns `none` in the one case where
the source raises (`min` over an empty dict, i.e. `max_entries = 0`). -/
def InMemoryCache.set (c : InMemoryCache V) (key : String) (v : Option V) (ttl now : ℚ) :
    Option (InMemoryCache V) :=
  let evicted : Option (List (String × CacheEntry V)) :=
    if c.max ≤ c.data.length then
      match oldestEntry c.data with
      | none => none
      | some old => some (c.data.eraseP (fun kv => kv.1 == old.1))
    else some c.data
  match evicted with
  | none => none
  | some d => some { c with data := assocSet d key (CacheEntry.make v ttl now) }

/-- The `cached` decorator's wrapper (`cache.py` lines 171-183): consult
the cache; any value that `is not None` is a hit; otherwise run the
function, attempt to store the result (a storage failure is swallowed) and
return it.  The third component reports whether the wrapped function was
executed. -/
def cachedCall (c : InMemoryCache V) (key : String) (ttl : ℚ) (f : Unit → Option V)
    (now : ℚ) : Option V × InMemoryCache V × Bool :=
  match c.get key now with
  | (some v, c1) => (some v, c1, false)
  | (none, c1) =>
    let result := f ()
    let c2 := match c1.set key result ttl now with
              | some c' => c'
              | none => c1
    (result, c2, true)

/-! ### Cache lemmas -/

lemma find?_assocSet (d : List (String × CacheEntry V)) (key : String) (e : CacheEntry V) :
    (assocSet d key e).find? (fun kv => kv.1 == key) = some (key, e) := by
  induction d with
  | nil => simp [assocSet]
  | cons kv rest ih =>
    by_cases h : kv.1 == key
    · simp [assocSet, h]
    · rw [Bool.not_eq_true] at h
      simp [assocSet, h, ih]

lemma oldestEntry_go (data : List (String × CacheEntry V)) (b : String × CacheEntry V) :
    ∃ m, data.foldl oldestStep (some b) = some m ∧ (m = b ∨ m ∈ data) ∧
      m.2.created_at ≤ b.2.created_at ∧ ∀ kv ∈ data, m.2.created_at ≤ kv.2.created_at := by
  induction data generalizing b with
  | nil => exact ⟨b, rfl, Or.inl rfl, le_refl _, by simp⟩
  | cons kv rest ih =>
    rw [List.foldl_cons]
    by_cases h : kv.2.created_at < b.2.created_at
    · have hstep : oldestStep (some b) kv = some kv := by
        simp [oldestStep, h]
      rw [hstep]
      obtain ⟨m, hm, hmem, hle, hall⟩ := ih kv
      refine ⟨m, hm, ?_, ?_, ?_⟩
      · rcases hmem with h' | h'
        · exact Or.inr (h' ▸ List.mem_cons_self kv rest)
        · exact Or.inr (List.mem_cons_of_mem _ h')
      · exact hle.trans (le_of_lt h)
      · intro kv' hkv'
        rcases List.mem_cons.mp hkv' with h' | h'
        · exact h' ▸ hle
        · exact hall kv' h'
    · have hstep : oldestStep (some b) kv = some b := by
        simp [oldestStep, h]
      rw [hstep]
      obtain ⟨m, hm, hmem, hle, hall⟩ := ih b
      refine ⟨m, hm, ?_, hle, ?_⟩
      · rcases hmem with h' | h'
        · exact Or.inl h'
        · exact Or.inr (List.mem_cons_of_mem _ h')
      · intro kv' hkv'
        rcases List.mem_cons.mp hkv' with h' | h'
        · rw [h']
          exact hle.trans (not_lt.mp h)
        · exact hall kv' h'

lemma oldestEntry_spec (data : List (String × CacheEntry V)) (h : data ≠ []) :
    ∃ old, oldestEntry data = some old ∧ old ∈ data ∧
      ∀ kv ∈ data, old.2.created_at ≤ kv.2.created_at := by
  match data with
  | kv :: rest =>
    obtain ⟨m, hm, hmem, hle, hall⟩ := oldestEntry_go rest kv
    refine ⟨m, ?_, ?_, ?_⟩
    · show (kv :: rest).foldl oldestStep none = some m
      rw [List.foldl_cons]
      exact hm
    · rcases hmem with h' | h'
      · exact h' ▸ List.mem_cons_self kv rest
      · exact List.mem_cons_of_mem _ h'
    · intro kv' hkv'
      rcases List.mem_cons.mp hkv' with h' | h'
      · rw [h']
        exact hle
      · exact hall kv' h'

lemma InMemoryCache.set_of_spare (c : InMemoryCache V) (key : String) (v : Option V)
    (ttl now : ℚ) (h : ¬ c.max ≤ c.data.length) :
    c.set key v ttl now
      = some { c with data := assocSet c.data key (CacheEntry.make v ttl now) } := by
  simp only [InMemoryCache.set]
  rw [if_neg h]

lemma InMemoryCache.set_of_full (c : InMemoryCache V) (key : String) (v : Option V)
    (ttl now : ℚ) (h : c.max ≤ c.data.length) (old : String × CacheEntry V)
    (ho : oldestEntry c.data = some old) :
    c.set key v ttl now
      = some { c with data := (assocSet (c.data.eraseP (fun kv => kv.1 == old.1)) key
          (CacheEntry.make v ttl now)) } := by
  simp only [InMemoryCache.set]
  rw [if_pos h, ho]

/-- After a successful `set`, looking the key up finds the fresh entry. -/
lemma InMemoryCache.find?_after_set (c c' : InMemoryCache V) (key : String) (v : Option V)
    (ttl now : ℚ) (hset : c.set key v ttl now = some c') :
    c'.data.find? (fun kv => kv.1 == key) = some (key, CacheEntry.make v ttl now) := by
  by_cases h : c.max ≤ c.data.length
  · cases ho : oldestEntry c.data with
    | none =>
      rw [InMemoryCache.set, if_pos h, ho] at hset
      cases hset
    | some old =>
      rw [c.set_of_full key v ttl now h old ho] at hset
      have h' := Option.some_injective _ hset
      rw [← h']
      exact find?_assocSet _ key _
  · rw [c.set_of_spare key v ttl now h] at hset
    have h' := Option.some_injective _ hset
    rw [← h']
    exact find?_assocSet _ key _

lemma InMemoryCache.set_isSome (c : InMemoryCache V) (key : String) (v : Option V)
    (ttl now : ℚ) (hmax : 1 ≤ c.max) :
    ∃ c', c.set key v ttl now = some c' := by
  by_cases h : c.max ≤ c.data.length
  · have hne : c.data ≠ [] := by
      intro h0
      rw [h0] at h
      simp at h
      omega
    obtain ⟨old, ho, _, _⟩ := oldestEntry_spec c.data hne
    exact ⟨_, c.set_of_full key v ttl now h old ho⟩
  · exact ⟨_, c.set_of_spare key v ttl now h⟩

/-- `get` in terms of the underlying lookup. -/
lemma InMemoryCache.get_of_find (c : InMemoryCache V) (key : String) (now : ℚ)
    (e : CacheEntry V) (hf : c.data.find? (fun kv => kv.1 == key) = some (key, e)) :
    c.get key now = if e.expired now then
        (none, { c with data := c.data.eraseP (fun kv' => kv'.1 == key) })
      else (e.value, c) := by
  simp only [InMemoryCache.get, hf]

lemma InMemoryCache.get_of_miss (c : InMemoryCache V) (key : String) (now : ℚ)
    (hf : c.data.find? (fun kv => kv.1 == key) = none) :
    c.get key now = (none, c) := by
  simp only [InMemoryCache.get, hf]

lemma InMemoryCache.get_max (c : InMemoryCache V) (key : String) (now : ℚ) :
    (c.get key now).2.max = c.max := by
  simp only [InMemoryCache.get]
  cases hfind : c.data.find? (fun kv => kv.1 == key) with
  | none => rfl
  | some kv =>
    dsimp only
    split <;> rfl

lemma CacheEntry.make_not_expired (v : Option V) (ttl now t : ℚ) (h : 0 < ttl)
    (hlt : t < now + ttl) : (CacheEntry.make v ttl now).expired t = false := by
  simp only [CacheEntry.make, CacheEntry.expired, if_pos h, decide_eq_false_iff_not]
  exact not_le.mpr hlt

lemma CacheEntry.make_expired_of_le (v : Option V) (ttl now t : ℚ) (h : 0 < ttl)
    (hle : now + ttl ≤ t) : (CacheEntry.make v ttl now).expired t = true := by
  simp only [CacheEntry.make, CacheEntry.expired, if_pos h, decide_eq_true_eq]
  exact hle

/-- C5.  Cache TTL and eviction correctness (`cache.py` lines 32-85): a
value stored with `ttl = T > 0` is returned by `get` at every time before
`now + T`; from `now + T` on, `get` reports a miss and removes the entry
(lazy expiry), and the `cached` wrapper consequently re-executes the
wrapped computation; and a cache already holding at least `max` entries
evicts, on the next insert, exactly the single entry with the oldest
insertion time (the unique minimum when creation times are distinct). -/
theorem C5_cache_ttl_and_eviction {V : Type} (c c' : InMemoryCache V) (key : String)
    (v : V) (T now : ℚ) (hT : 0 < T)
    (hset : c.set key (some v) T now = some c') :
    (∀ t : ℚ, t < now + T → (c'.get key t).1 = some v) ∧
    (∀ t : ℚ, now + T ≤ t → (c'.get key t).1 = none ∧
      (c'.get key t).2.data = c'.data.eraseP (fun kv => kv.1 == key)) ∧
    (∀ (f : Unit → Option V) (t : ℚ), now + T ≤ t →
      (cachedCall c' key T f t).2.2 = true) ∧
    (∀ c0 : InMemoryCache V, c0.data ≠ [] → c0.max ≤ c0.data.length →
      ∃ old, oldestEntry c0.data = some old ∧ old ∈ c0.data ∧
        (∀ kv ∈ c0.data, old.2.created_at ≤ kv.2.created_at) ∧
        (c0.data.Pairwise (fun a b => a.2.created_at ≠ b.2.created_at) →
          ∀ kv ∈ c0.data, kv ≠ old → old.2.created_at < kv.2.created_at) ∧
        c0.set key (some v) T now = some { c0 with data := (assocSet
          (c0.data.eraseP (fun kv => kv.1 == old.1)) key
          (CacheEntry.make (some v) T now)) }) := by
  have hfind := InMemoryCache.find?_after_set c c' key (some v) T now hset
  have hgetLate : ∀ t : ℚ, now + T ≤ t → c'.get key t
      = (none, { c' with data := c'.data.eraseP (fun kv' => kv'.1 == key) }) := by
    intro t ht
    rw [c'.get_of_find key t _ hfind, CacheEntry.make_expired_of_le _ _ _ _ hT ht, if_pos rfl]
  refine ⟨?_, ?_, ?_, ?_⟩
  · intro t ht
    rw [c'.get_of_find key t _ hfind, CacheEntry.make_not_expired _ _ _ _ hT ht,
      if_neg Bool.false_ne_true]
    rfl
  · intro t ht
    rw [hgetLate t ht]
    exact ⟨rfl, rfl⟩
  · intro f t ht
    simp only [cachedCall, hgetLate t ht]
  · intro c0 hne hfull
    obtain ⟨old, ho, hmem, hmin⟩ := oldestEntry_spec c0.data hne
    refine ⟨old, ho, hmem, hmin, ?_, c0.set_of_full key (some v) T now hfull old ho⟩
    intro hpw kv hkv hne'
    have hsymm : Symmetric (fun a b : String × CacheEntry V =>
        a.2.created_at ≠ b.2.created_at) := fun _ _ hab => hab.symm
    exact lt_of_le_of_ne (hmin kv hkv)
      (hpw.forall hsymm hmem hkv (fun h' => hne' h'.symm))

/-- Witness for C5: store 3 under "k" with ttl 5 at time 0, read back at
time 3. -/
theorem C5_witness :
    ((InMemoryCache.mk [("k", CacheEntry.make (some 3) 5 0)] 10 : InMemoryCache ℕ).get
      "k" 3).1 = some 3 :=
  (C5_cache_ttl_and_eviction ⟨[], 10⟩ ⟨[("k", CacheEntry.make (some 3) 5 0)], 10⟩
    "k" 3 5 0 (by norm_num)
    (by rw [InMemoryCache.set_of_spare _ _ _ _ _ (by norm_num)]; rfl)).1 3 (by norm_num)

/-- C10.  The `cached` wrapper (`cache.py` lines 162-187) never memoizes a
`None` result: when the wrapped function runs and returns `None`, the
`None` is written into the cache, yet any later read of an unexpired entry
whose stored value is `None` is treated by the wrapper's `val is not None`
test as a miss, so the wrapped function is executed again. -/
theorem C10_cached_never_memoizes_none {V : Type} (c : InMemoryCache V) (key : String)
    (ttl : ℚ) (f : Unit → Option V) (now : ℚ)
    (hmax : 1 ≤ c.max) (hf : f () = none) (hmiss : (c.get key now).1 = none) :
    ((cachedCall c key ttl f now).1 = none ∧
     (cachedCall c key ttl f now).2.2 = true ∧
     (cachedCall c key ttl f now).2.1.data.find? (fun kv => kv.1 == key)
        = some (key, CacheEntry.make none ttl now)) ∧
    (∀ (c2 : InMemoryCache V) (e : CacheEntry V) (g : Unit → Option V) (t : ℚ),
      c2.data.find? (fun kv => kv.1 == key) = some (key, e) → e.value = none →
      e.expired t = false →
      (c2.get key t).1 = none ∧ (cachedCall c2 key ttl g t).2.2 = true) ∧
    (0 < ttl → ∀ t : ℚ, t < now + ttl →
      (cachedCall (cachedCall c key ttl f now).2.1 key ttl f t).2.2 = true) := by
  set c1 := (c.get key now).2 with hc1
  have hpair : c.get key now = (none, c1) := by
    rw [← hmiss]
  have hmax2 : 1 ≤ c1.max := by
    rw [hc1, InMemoryCache.get_max]
    exact hmax
  obtain ⟨cset, hcset⟩ := c1.set_isSome key none ttl now hmax2
  have hcc : cachedCall c key ttl f now = (none, cset, true) := by
    simp only [cachedCall, hpair, hf, hcset]
  have hstep2 : ∀ (c2 : InMemoryCache V) (e : CacheEntry V) (g : Unit → Option V) (t : ℚ),
      c2.data.find? (fun kv => kv.1 == key) = some (key, e) → e.value = none →
      e.expired t = false →
      (c2.get key t).1 = none ∧ (cachedCall c2 key ttl g t).2.2 = true := by
    intro c2 e g t he hv hexp
    have hg : c2.get key t = (e.value, c2) := by
      rw [c2.get_of_find key t e he, hexp, if_neg Bool.false_ne_true]
    rw [hv] at hg
    refine ⟨by rw [hg], ?_⟩
    simp only [cachedCall, hg]
  refine ⟨⟨by rw [hcc], by rw [hcc], ?_⟩, hstep2, ?_⟩
  · rw [hcc]
    exact InMemoryCache.find?_after_set _ _ key none ttl now hcset
  · intro httl t ht
    have hfind2 : (cachedCall c key ttl f now).2.1.data.find? (fun kv => kv.1 == key)
        = some (key, CacheEntry.make none ttl now) := by
      rw [hcc]
      exact InMemoryCache.find?_after_set _ _ key none ttl now hcset
    exact (hstep2 _ _ f t hfind2 rfl
      (CacheEntry.make_not_expired none ttl now t httl ht)).2

/-- Witness for C10: an empty cache, a function returning `None`. -/
theorem C10_witness :
    (cachedCall (InMemoryCache.mk [] 10 : InMemoryCache ℕ) "k" 5 (fun _ => none) 0).2.2
      = true :=
  ((C10_cached_never_memoizes_none ⟨[], 10⟩ "k" 5 (fun _ => none) 0
    (by norm_num) rfl (by decide)).1).2.1

/-! ## resilience.py : error classification, backoff and the retry loop -/

/-- The exceptions `is_transient_error` inspects: a connectivity failure
(`EndpointConnectionError`), an API error (`ClientError`) carrying an
optional error code, or anything else. -/
inductive AwsErr where
  | endpointConn
  | clientErr (code : Option String)
  | other
  deriving Repr, DecidableEq

def TRANSIENT_ERROR_CODES : List String :=
  ["Throttling", "ThrottlingException", "RequestLimitExceeded", "TooManyRequestsException",
   "RequestTimeout", "RequestTimeoutException", "InternalError", "InternalServerError",
   "ServiceUnavailable", "Unavailable"]

/-- `is_transient_error` (`resilience.py` lines 125-131). -/
def is_transient_error : AwsErr → Bool
  | .endpointConn => true
  | .clientErr code =>
    match code with
    | some c => TRANSIENT_ERROR_CODES.contains c
    | none => false
  | .other => false

/-- `exponential_backoff` (`resilience.py` lines 53-60): full jitter,
`random.uniform(0, min(cap, base * 2 ** attempt))`, with the uniform draw
modelled by a unit sample `u` scaled onto the interval. -/
def exponential_backoff (base : ℚ) (attempt : ℕ) (cap : ℚ) (u : ℚ) : ℚ :=
  u * min cap (base * 2 ^ attempt)

inductive InvokeErr where
  | circuitOpen
  | err (e : AwsErr)
  deriving Repr, DecidableEq

structure InvokeResult (α : Type) where
  result : Except InvokeErr α
  sleeps : List ℚ
  calls : ℕ
  circuit : CircuitBreaker
  limiter : RateLimiter
  now : ℚ

/-- The `while True` loop of `invoke_with_resilience` (`resilience.py`
lines 134-187), entered at a given attempt number: check the breaker (fail
fast with the rate-limit-class error when open), acquire a limiter token
(possibly sleeping), run the call; a success records a breaker success; a
failure that is not transient, or one with `attempt >= max_retries`,
records a breaker failure and propagates; otherwise sleep the jittered
backoff and loop with `attempt + 1`.  `func n` is the outcome of the nth
invocation of the wrapped callable; `u n` is the nth uniform draw. -/
def invokeFrom (func : ℕ → Except AwsErr α) (max_retries : ℕ)
    (backoff_base backoff_max : ℚ) (u : ℕ → ℚ) (attempt : ℕ) (cb : CircuitBreaker)
    (rl : RateLimiter) (now : ℚ) : InvokeResult α :=
  match cb.allow now with
  | (false, cb1) => ⟨.error .circuitOpen, [], 0, cb1, rl, now⟩
  | (true, cb1) =>
    let acq := rl.acquire now
    let now1 := now + acq.2
    match func attempt with
    | .ok a => ⟨.ok a, [], 1, cb1.record_success, acq.1, now1⟩
    | .error e =>
      if h : ¬ is_transient_error e ∨ max_retries ≤ attempt then
        ⟨.error (.err e), [], 1, cb1.record_failure now1, acq.1, now1⟩
      else
        let sleep_for := exponential_backoff backoff_base attempt backoff_max (u attempt)
        let rest := invokeFrom func max_retries backoff_base backoff_max u (attempt + 1)
          cb1 acq.1 (now1 + sleep_for)
        ⟨rest.result, sleep_for :: rest.sleeps, rest.calls + 1, rest.circuit,
          rest.limiter, rest.now⟩
  termination_by max_retries - attempt
  decreasing_by push_neg at h; omega

/-- `invoke_with_resilience` enters the loop with `attempt = 0`. -/
def invoke_with_resilience (func : ℕ → Except AwsErr α) (rl : RateLimiter)
    (cb : CircuitBreaker) (max_retries : ℕ) (backoff_base backoff_max : ℚ)
    (u : ℕ → ℚ) (now : ℚ) : InvokeResult α :=
  invokeFrom func max_retries backoff_base backoff_max u 0 cb rl now

lemma invokeFrom_fail_stop (func : ℕ → Except AwsErr α) (mr : ℕ) (bb bm : ℚ) (u : ℕ → ℚ)
    (attempt : ℕ) (cb cb1 : CircuitBreaker) (rl : RateLimiter) (now : ℚ) (e : AwsErr)
    (hallow : cb.allow now = (true, cb1)) (herr : func attempt = .error e)
    (hcond : ¬ is_transient_error e ∨ mr ≤ attempt) :
    invokeFrom func mr bb bm u attempt cb rl now
      = ⟨.error (.err e), [], 1, cb1.record_failure (now + (rl.acquire now).2),
          (rl.acquire now).1, now + (rl.acquire now).2⟩ := by
  rw [invokeFrom, hallow]
  simp only [herr, dif_pos hcond]

lemma invokeFrom_fail_retry (func : ℕ → Except AwsErr α) (mr : ℕ) (bb bm : ℚ) (u : ℕ → ℚ)
    (attempt : ℕ) (cb cb1 : CircuitBreaker) (rl : RateLimiter) (now : ℚ) (e : AwsErr)
    (rest : InvokeResult α)
    (hallow : cb.allow now = (true, cb1)) (herr : func attempt = .error e)
    (hcond : ¬ (¬ is_transient_error e ∨ mr ≤ attempt))
    (hrest : invokeFrom func mr bb bm u (attempt + 1) cb1 (rl.acquire now).1
      (now + (rl.acquire now).2 + exponential_backoff bb attempt bm (u attempt)) = rest) :
    invokeFrom func mr bb bm u attempt cb rl now
      = ⟨rest.result, exponential_backoff bb attempt bm (u attempt) :: rest.sleeps,
          rest.calls + 1, rest.circuit, rest.limiter, rest.now⟩ := by
  rw [invokeFrom, hallow]
  simp only [herr, dif_neg hcond, hrest]

lemma CircuitBreaker.record_failure_failures (cb : CircuitBreaker) (t : ℚ)
    (h : cb.state.half_open = false) :
    (cb.record_failure t).state.failures = cb.state.failures + 1 := by
  by_cases h2 : cb.fail_threshold ≤ cb.state.failures + 1 ∧ cb.state.opened_at = none
  · rw [cb.record_failure_of_trip t h h2]
  · rw [cb.record_failure_of_below t h h2]

/-- If every attempt up to `max_retries` fails transiently, the loop makes
`max_retries - attempt + 1` calls from attempt `attempt`, sleeps the
jittered backoff between consecutive calls, records one breaker failure
and propagates the last error. -/
lemma invokeFrom_all_transient (func : ℕ → Except AwsErr α) (mr : ℕ) (bb bm : ℚ)
    (u : ℕ → ℚ) (errs : ℕ → AwsErr) :
    ∀ (k attempt : ℕ) (cb : CircuitBreaker) (rl : RateLimiter) (now : ℚ),
      mr - attempt = k → attempt ≤ mr →
      cb.state.opened_at = none → cb.state.half_open = false →
      (∀ i, attempt ≤ i → i ≤ mr →
        func i = .error (errs i) ∧ is_transient_error (errs i) = true) →
      (invokeFrom func mr bb bm u attempt cb rl now).result = .error (.err (errs mr)) ∧
      (invokeFrom func mr bb bm u attempt cb rl now).calls = mr - attempt + 1 ∧
      (invokeFrom func mr bb bm u attempt cb rl now).sleeps
        = (List.range' attempt (mr - attempt)).map
            (fun i => exponential_backoff bb i bm (u i)) ∧
      (invokeFrom func mr bb bm u attempt cb rl now).circuit.state.failures
        = cb.state.failures + 1 := by
  intro k
  induction k with
  | zero =>
    intro attempt cb rl now hk hle hcl hho hf
    have heq : attempt = mr := by omega
    subst heq
    have hallow := cb.allow_of_closed now hcl
    obtain ⟨herr, _⟩ := hf attempt le_rfl le_rfl
    rw [invokeFrom_fail_stop func attempt bb bm u attempt cb cb rl now _ hallow herr
      (Or.inr le_rfl)]
    refine ⟨rfl, by simp, by simp, cb.record_failure_failures _ hho⟩
  | succ k ih =>
    intro attempt cb rl now hk hle hcl hho hf
    have hlt : attempt < mr := by omega
    have hallow := cb.allow_of_closed now hcl
    obtain ⟨herr, htr⟩ := hf attempt le_rfl (le_of_lt hlt)
    have hcond : ¬ (¬ is_transient_error (errs attempt) ∨ mr ≤ attempt) := by
      push_neg
      exact ⟨by rw [htr], hlt⟩
    obtain ⟨h1, h2, h3, h4⟩ := ih (attempt + 1) cb (rl.acquire now).1
      (now + (rl.acquire now).2 + exponential_backoff bb attempt bm (u attempt))
      (by omega) (by omega) hcl hho (fun i hi1 hi2 => hf i (by omega) hi2)
    rw [invokeFrom_fail_retry func mr bb bm u attempt cb cb rl now _ _ hallow herr hcond rfl]
    refine ⟨h1, ?_, ?_, h4⟩
    · simp only [h2]
      omega
    · simp only [h3]
      have hr : mr - attempt = (mr - (attempt + 1)) + 1 := by omega
      rw [hr, List.range'_succ]
      simp

/-- C4.  Retry loop failure handling (`resilience.py` lines 118-187): a
failure is transient exactly when it is a connectivity error or a
`ClientError` whose code lies in the fixed throttling/server-busy set; a
permanent failure propagates immediately after one breaker failure is
recorded, with no backoff sleep; when every attempt fails transiently the
loop retries `max_retries` times, sleeping
`uniform(0, min(backoff_max, backoff_base * 2 ^ attempt))` before retry
`attempt + 1`, then records one breaker failure and propagates the last
error; each jittered sleep lies in `[0, min(backoff_max, backoff_base *
2 ^ attempt)]`. -/
theorem C4_retry_loop_failure_handling {α : Type} (func : ℕ → Except AwsErr α)
    (mr : ℕ) (bb bm : ℚ) (u : ℕ → ℚ) (cb : CircuitBreaker) (rl : RateLimiter) (now : ℚ)
    (hcl : cb.state.opened_at = none) (hho : cb.state.half_open = false) :
    (∀ e : AwsErr, is_transient_error e = true ↔
      (e = .endpointConn ∨ ∃ code, e = .clientErr (some code) ∧
        code ∈ TRANSIENT_ERROR_CODES)) ∧
    (∀ e : AwsErr, func 0 = .error e → is_transient_error e = false →
      (invoke_with_resilience func rl cb mr bb bm u now).result = .error (.err e) ∧
      (invoke_with_resilience func rl cb mr bb bm u now).calls = 1 ∧
      (invoke_with_resilience func rl cb mr bb bm u now).sleeps = [] ∧
      (invoke_with_resilience func rl cb mr bb bm u now).circuit.state.failures
        = cb.state.failures + 1) ∧
    (∀ errs : ℕ → AwsErr,
      (∀ i, i ≤ mr → func i = .error (errs i) ∧ is_transient_error (errs i) = true) →
      (invoke_with_resilience func rl cb mr bb bm u now).result
        = .error (.err (errs mr)) ∧
      (invoke_with_resilience func rl cb mr bb bm u now).calls = mr + 1 ∧
      (invoke_with_resilience func rl cb mr bb bm u now).sleeps
        = (List.range mr).map (fun i => exponential_backoff bb i bm (u i)) ∧
      (invoke_with_resilience func rl cb mr bb bm u now).circuit.state.failures
        = cb.state.failures + 1) ∧
    (∀ i : ℕ, 0 ≤ u i → u i ≤ 1 → 0 ≤ bb → 0 ≤ bm →
      0 ≤ exponential_backoff bb i bm (u i) ∧
      exponential_backoff bb i bm (u i) ≤ min bm (bb * 2 ^ i)) := by
  refine ⟨?_, ?_, ?_, ?_⟩
  · intro e
    cases e with
    | endpointConn => simp [is_transient_error]
    | clientErr code =>
      cases code with
      | none => simp [is_transient_error]
      | some c => simp [is_transient_error, List.elem_iff]
    | other => simp [is_transient_error]
  · intro e herr htr
    have hallow := cb.allow_of_closed now hcl
    unfold invoke_with_resilience
    rw [invokeFrom_fail_stop func mr bb bm u 0 cb cb rl now e hallow herr
      (Or.inl (by rw [htr]; exact Bool.false_ne_true))]
    exact ⟨rfl, rfl, rfl, cb.record_failure_failures _ hho⟩
  · intro errs hf
    have h := invokeFrom_all_transient func mr bb bm u errs mr 0 cb rl now
      (by omega) (by omega) hcl hho (fun i _ hi2 => hf i hi2)
    unfold invoke_with_resilience
    refine ⟨h.1, ?_, ?_, h.2.2.2⟩
    · rw [h.2.1]
      omega
    · rw [h.2.2.1, List.range_eq_range']
      simp
  · intro i hu0 hu1 hbb hbm
    have hmin : 0 ≤ min bm (bb * 2 ^ i) := le_min hbm (by positivity)
    constructor
    · exact mul_nonneg hu0 hmin
    · calc u i * min bm (bb * 2 ^ i) ≤ 1 * min bm (bb * 2 ^ i) :=
            mul_le_mul_of_nonneg_right hu1 hmin
        _ = min bm (bb * 2 ^ i) := one_mul _

/-- Witness for C4: a function that always fails with a throttling error,
two retries allowed. -/
theorem C4_witness :
    (invoke_with_resilience (fun _ => (Except.error (AwsErr.clientErr (some "Throttling"))
        : Except AwsErr ℕ))
      ⟨5, 5, 5, 0⟩ ⟨5, 60, CircuitState.initial⟩ 2 (1/100) (1/20) (fun _ => 1/2) 0).calls
      = 3 := by
  have htc : is_transient_error (AwsErr.clientErr (some "Throttling")) = true := by decide
  exact ((C4_retry_loop_failure_handling (fun _ => .error (.clientErr (some "Throttling")))
    2 (1/100) (1/20) (fun _ => 1/2) ⟨5, 60, CircuitState.initial⟩ ⟨5, 5, 5, 0⟩ 0
    rfl rfl).2.2.1 (fun _ => .clientErr (some "Throttling"))
    (fun _ _ => ⟨rfl, htc⟩)).2.1

/-! ## finops.py : multi-account cost aggregation

An organization account as yielded by `org_accounts.py`
(`{'id': ..., 'name': ..., 'email': ...}`). -/

structure Account where
  id : String
  name : Option String
  email : Option String
  deriving Repr, DecidableEq

/-- One group of a Cost Explorer `ResultsByTime` page: the service name
(`Keys[0]`) and the `BlendedCost.Amount`. -/
structure CEGroup where
  key : String
  amount : ℚ
  deriving Repr, DecidableEq

/-- Python dict assignment `d[key] = v` on a string-keyed dict: replace in
place when bound, else append. -/
def dictSet {β : Type} : List (String × β) → String → β → List (String × β)
  | [], key, v => [(key, v)]
  | kv :: rest, key, v =>
    if kv.1 == key then (key, v) :: rest else kv :: dictSet rest key v

/-- `service_breakdown[svc] = service_breakdown.get(svc, 0) + cost`. -/
def serviceAdd (m : List (String × ℚ)) (svc : String) (cost : ℚ) : List (String × ℚ) :=
  dictSet m svc (((m.find? (fun kv => kv.1 == svc)).map Prod.snd).getD 0 + cost)

structure AccountCost where
  account_id : String
  account_name : Option String
  total_cost : ℚ
  service_breakdown : List (String × ℚ)
  deriving Repr, DecidableEq

/-- The per-account parsing loop of `get_multi_account_costs`
(`finops.py` lines 457-471): walk `ResultsByTime` pages and their groups,
summing the total and the per-service breakdown. -/
def parseCosts (acct : Account) (pages : List (List CEGroup)) : AccountCost :=
  let folded := pages.foldl
    (fun acc page => page.foldl
      (fun acc g => (acc.1 + g.amount, serviceAdd acc.2 g.key g.amount)) acc)
    ((0 : ℚ), ([] : List (String × ℚ)))
  ⟨acct.id, acct.name, folded.1, folded.2⟩

/-- How a single account's billing call can fail: a botocore `ClientError`
(the only class the aggregator catches) or any other exception. -/
inductive BillingErr where
  | clientError (code : Option String)
  | otherError
  deriving Repr, DecidableEq

/-- The account loop of `get_multi_account_costs` (`finops.py` lines
444-477): `except ClientError: continue` skips the account; any other
exception propagates out of the loop. -/
def gmacGo : List (Account × Except BillingErr (List (List CEGroup))) →
    List (String × AccountCost) → Except BillingErr (List (String × AccountCost))
  | [], acc => .ok acc
  | (acct, res) :: rest, acc =>
    match res with
    | .ok pages => gmacGo rest (dictSet acc acct.id (parseCosts acct pages))
    | .error (.clientError _) => gmacGo rest acc
    | .error .otherError => .error .otherError

/-- `FinOpsAnalyzer.get_multi_account_costs`, with each enumerated account
paired with the outcome of its billing call. -/
def get_multi_account_costs
    (entries : List (Account × Except BillingErr (List (List CEGroup)))) :
    Except BillingErr (List (String × AccountCost)) :=
  gmacGo entries []

lemma dictSet_of_fresh {β : Type} (acc : List (String × β)) (key : String) (v : β)
    (h : ∀ kv ∈ acc, kv.1 ≠ key) : dictSet acc key v = acc ++ [(key, v)] := by
  induction acc with
  | nil => rfl
  | cons kv rest ih =>
    have hne := h kv (List.mem_cons_self kv rest)
    rw [dictSet, if_neg (by simp [hne])]
    rw [ih (fun kv' hkv' => h kv' (List.mem_cons_of_mem _ hkv'))]
    rfl

lemma gmacGo_ok_run (l : List (Account × List (List CEGroup)))
    (rest : List (Account × Except BillingErr (List (List CEGroup))))
    (acc : List (String × AccountCost))
    (hfresh : ∀ e ∈ l, ∀ kv ∈ acc, kv.1 ≠ e.1.id)
    (hnd : (l.map (fun e => e.1.id)).Nodup) :
    gmacGo (l.map (fun e => (e.1, Except.ok e.2)) ++ rest) acc
      = gmacGo rest (acc ++ l.map (fun e => (e.1.id, parseCosts e.1 e.2))) := by
  induction l generalizing acc with
  | nil => simp
  | cons e t ih =>
    simp only [List.map_cons, List.cons_append]
    rw [gmacGo]
    rw [dictSet_of_fresh acc e.1.id _
      (fun kv hkv => hfresh e (List.mem_cons_self e t) kv hkv)]
    rw [List.map_cons, List.nodup_cons] at hnd
    rw [ih _ ?_ hnd.2]
    · rw [List.append_assoc]
      rfl
    · intro e' he' kv hkv
      rcases List.mem_append.mp hkv with h' | h'
      · exact hfresh e' (List.mem_cons_of_mem _ he') kv h'
      · have hkv' : kv = (e.1.id, parseCosts e.1 e.2) := by simpa using h'
        rw [hkv']
        show e.1.id ≠ e'.1.id
        intro hc
        exact hnd.1 (hc ▸ List.mem_map_of_mem (fun x => x.1.id) he')

lemma gmacGo_skip (a : Account) (code : Option String)
    (rest : List (Account × Except BillingErr (List (List CEGroup))))
    (acc : List (String × AccountCost)) :
    gmacGo ((a, Except.error (BillingErr.clientError code)) :: rest) acc
      = gmacGo rest acc := rfl

/-- Counterexample to C2 as stated: when the single enumerated account's
billing call raises something other than a `ClientError`, the exception
escapes `get_multi_account_costs` instead of yielding an `N-1`-entry map
(here `N = 1`, so the claim predicts the empty map). -/
theorem C2_counterexample :
    get_multi_account_costs
        [(⟨"111111111111", some "Dev", none⟩, Except.error BillingErr.otherError)]
      = Except.error BillingErr.otherError ∧
    ∀ m : List (String × AccountCost),
      get_multi_account_costs
          [(⟨"111111111111", some "Dev", none⟩, Except.error BillingErr.otherError)]
        ≠ Except.ok m := by
  refine ⟨rfl, ?_⟩
  intro m h
  exact Except.noConfusion h

/-- C2 (amended).  Partial failure isolation (`finops.py` lines 439-477):
for distinct account ids, if exactly one account's billing call fails with
a `ClientError` (the class the aggregator catches), the aggregator returns
a map holding exactly the `N-1` successful accounts' entries, in
enumeration order, and no exception escapes. -/
theorem C2_partial_failure_isolation (pre post : List (Account × List (List CEGroup)))
    (a : Account) (code : Option String)
    (hnd : ((pre ++ post).map (fun e => e.1.id)).Nodup) :
    get_multi_account_costs
        (pre.map (fun e => (e.1, Except.ok e.2))
          ++ [(a, Except.error (BillingErr.clientError code))]
          ++ post.map (fun e => (e.1, Except.ok e.2)))
      = Except.ok ((pre ++ post).map (fun e => (e.1.id, parseCosts e.1 e.2))) ∧
    ((pre ++ post).map (fun e => (e.1.id, parseCosts e.1 e.2))).length
      = (pre.length + 1 + post.length) - 1 := by
  rw [List.map_append] at hnd
  rw [List.nodup_append] at hnd
  obtain ⟨hndPre, hndPost, hdisj⟩ := hnd
  constructor
  · unfold get_multi_account_costs
    rw [List.append_assoc]
    rw [gmacGo_ok_run pre _ [] (by simp) hndPre]
    rw [List.nil_append, List.singleton_append, gmacGo_skip]
    rw [(List.append_nil (post.map (fun e => (e.1, Except.ok e.2)))).symm]
    rw [gmacGo_ok_run post [] _ ?_ hndPost]
    · rw [gmacGo, List.map_append]
    · intro e' he' kv hkv
      have hkv1 : kv.1 ∈ pre.map (fun e => e.1.id) := by
        rcases List.mem_map.mp hkv with ⟨e0, he0, hkv0⟩
        rw [← hkv0]
        exact List.mem_map_of_mem (fun x => x.1.id) he0
      intro hc
      exact hdisj hkv1 (hc ▸ List.mem_map_of_mem (fun x => x.1.id) he')
  · rw [List.length_map, List.length_append]
    omega

/-- Witness for C2: two accounts succeed, the middle one throttles. -/
theorem C2_witness :
    get_multi_account_costs
        [(⟨"111111111111", some "Dev", none⟩, Except.ok [[⟨"Amazon EC2", 10⟩]]),
         (⟨"333333333333", some "Stg", none⟩,
            Except.error (BillingErr.clientError (some "Throttling"))),
         (⟨"222222222222", some "Prod", none⟩, Except.ok [[⟨"Amazon EC2", 51/2⟩]])]
      = Except.ok
          [("111111111111", parseCosts ⟨"111111111111", some "Dev", none⟩
              [[⟨"Amazon EC2", 10⟩]]),
           ("222222222222", parseCosts ⟨"222222222222", some "Prod", none⟩
              [[⟨"Amazon EC2", 51/2⟩]])] :=
  (C2_partial_failure_isolation
    [(⟨"111111111111", some "Dev", none⟩, [[⟨"Amazon EC2", 10⟩]])]
    [(⟨"222222222222", some "Prod", none⟩, [[⟨"Amazon EC2", 51/2⟩]])]
    ⟨"333333333333", some "Stg", none⟩ (some "Throttling") (by decide)).1

/-! ## finops.py : get_consolidated_billing_summary -/

/-- The order `sorted(values, key=lambda x: x['total_cost'], reverse=True)`
sorts by: `a` may come before `b` iff `a`'s cost is at least `b`'s. -/
def costDescRel (a b : AccountCost) : Prop := b.total_cost ≤ a.total_cost

instance : DecidableRel costDescRel :=
  fun a b => inferInstanceAs (Decidable (b.total_cost ≤ a.total_cost))

instance : IsTotal AccountCost costDescRel :=
  ⟨fun a b => le_total b.total_cost a.total_cost⟩

instance : IsTrans AccountCost costDescRel :=
  ⟨fun _ _ _ hab hbc => le_trans hbc hab⟩

/-- Python's `sorted` is a stable sort; with the reversed comparison it
equals insertion sort under `costDescRel` (ties keep list order because an
earlier element is inserted before a later equal one). -/
def stableSortByCostDesc (l : List AccountCost) : List AccountCost :=
  List.insertionSort costDescRel l

structure ConsolidatedSummary where
  total_consolidated_cost : ℚ
  accounts : List (String × AccountCost)
  top_accounts : List AccountCost
  account_count : ℕ
  deriving Repr, DecidableEq

/-- `FinOpsAnalyzer.get_consolidated_billing_summary` (`finops.py` lines
479-494) on a given per-account cost map: total = sum of per-account
totals, top accounts = first 10 of the stable descending sort of the
values, count = number of entries. -/
def get_consolidated_billing_summary (m : List (String × AccountCost)) :
    ConsolidatedSummary :=
  { total_consolidated_cost := (m.map (fun kv => kv.2.total_cost)).sum,
    accounts := m,
    top_accounts := (stableSortByCostDesc (m.map Prod.snd)).take 10,
    account_count := m.length }

lemma filter_orderedInsert_pos (c : ℚ) (a : AccountCost) (l : List AccountCost)
    (ha : a.total_cost = c) :
    (l.orderedInsert costDescRel a).filter (fun x => x.total_cost == c)
      = a :: l.filter (fun x => x.total_cost == c) := by
  induction l with
  | nil => simp [List.orderedInsert, ha]
  | cons b t ih =>
    by_cases hr : costDescRel a b
    · rw [List.orderedInsert, if_pos hr]
      simp [List.filter_cons, ha]
    · rw [List.orderedInsert, if_neg hr]
      have hb : (b.total_cost == c) = false := by
        apply beq_eq_false_iff_ne.mpr
        intro hbc
        exact hr (by rw [costDescRel, ha, hbc])
      simp [List.filter_cons, hb, ih]

lemma filter_orderedInsert_neg (c : ℚ) (a : AccountCost) (l : List AccountCost)
    (ha : a.total_cost ≠ c) :
    (l.orderedInsert costDescRel a).filter (fun x => x.total_cost == c)
      = l.filter (fun x => x.total_cost == c) := by
  have hafalse : (a.total_cost == c) = false := beq_eq_false_iff_ne.mpr ha
  induction l with
  | nil => simp [List.orderedInsert, hafalse]
  | cons b t ih =>
    by_cases hr : costDescRel a b
    · rw [List.orderedInsert, if_pos hr]
      simp [List.filter_cons, hafalse]
    · rw [List.orderedInsert, if_neg hr]
      simp [List.filter_cons, ih]

/-- Stability of the sort: for every cost value, the sub-sequence of
entries with that cost is unchanged, i.e. ties keep the original
iteration order. -/
lemma filter_stableSortByCostDesc (c : ℚ) (l : List AccountCost) :
    (stableSortByCostDesc l).filter (fun x => x.total_cost == c)
      = l.filter (fun x => x.total_cost == c) := by
  induction l with
  | nil => rfl
  | cons a t ih =>
    rw [stableSortByCostDesc] at ih
    show ((t.insertionSort costDescRel).orderedInsert costDescRel a).filter _ = _
    by_cases ha : a.total_cost = c
    · rw [filter_orderedInsert_pos c a _ ha, ih]
      simp [List.filter_cons, ha]
    · rw [filter_orderedInsert_neg c a _ ha, ih]
      simp [List.filter_cons, beq_eq_false_iff_ne.mpr ha]

/-- C3.  Consolidated billing summary correctness (`finops.py` lines
479-494): the consolidated total equals the sum of the per-account totals
exactly (so in particular within any rounding tolerance), the account
count equals the size of the map, and the top accounts are the first
`min(10, account_count)` elements of a descending stable sort of the
per-account entries (sorted by total cost, ties in original iteration
order). -/
theorem C3_consolidated_billing_summary (m : List (String × AccountCost)) :
    (get_consolidated_billing_summary m).total_consolidated_cost
      = ((get_consolidated_billing_summary m).accounts.map
          (fun kv => kv.2.total_cost)).sum ∧
    (get_consolidated_billing_summary m).account_count = m.length ∧
    (get_consolidated_billing_summary m).top_accounts.length = min 10 m.length ∧
    List.Sorted costDescRel (get_consolidated_billing_summary m).top_accounts ∧
    ∃ sortedAll : List AccountCost,
      sortedAll.Perm (m.map Prod.snd) ∧ List.Sorted costDescRel sortedAll ∧
      (∀ c : ℚ, sortedAll.filter (fun x => x.total_cost == c)
        = (m.map Prod.snd).filter (fun x => x.total_cost == c)) ∧
      (get_consolidated_billing_summary m).top_accounts = sortedAll.take 10 := by
  refine ⟨rfl, rfl, ?_, ?_, stableSortByCostDesc (m.map Prod.snd), ?_, ?_, ?_, rfl⟩
  · show ((stableSortByCostDesc (m.map Prod.snd)).take 10).length = min 10 m.length
    rw [List.length_take, stableSortByCostDesc, List.length_insertionSort, List.length_map]
  · exact List.Pairwise.sublist (List.take_sublist 10 _)
      (List.sorted_insertionSort costDescRel (m.map Prod.snd))
  · exact List.perm_insertionSort costDescRel (m.map Prod.snd)
  · exact List.sorted_insertionSort costDescRel (m.map Prod.snd)
  · exact fun c => filter_stableSortByCostDesc c (m.map Prod.snd)

/-! ## aws_session.py : session caching and the 5-minute expiry buffer

Times are seconds; `300` is `timedelta(minutes=5)`. -/

structure SessionState (S : Type) where
  session : Option S
  cache_expiry : Option ℚ
  deriving Repr, DecidableEq

/-- The expiry test inside `_is_session_valid` (`aws_session.py` lines
246-252): with an expiry recorded, the session is stale when
`cache_expiry <= now + 5 minutes`. -/
def expiryOk (e : Option ℚ) (now : ℚ) : Bool :=
  match e with
  | none => true
  | some t => now + 300 < t

/-- `AWSSessionManager._is_session_valid` (`aws_session.py` lines
238-254): a session is valid when present and not within the buffer of
its recorded expiry. -/
def is_session_valid (st : SessionState S) (now : ℚ) : Bool :=
  match st.session with
  | none => false
  | some _ => expiryOk st.cache_expiry now

/-- `AWSSessionManager.get_session` (`aws_session.py` lines 56-67 and
121-144): return the cached session when valid, otherwise resolve a fresh
session (role assumption / static keys / profile / default chain,
abstracted by `resolve`, which also yields the new recorded expiry) and
cache it. -/
def get_session (st : SessionState S) (resolve : Unit → S × Option ℚ) (now : ℚ) :
    S × SessionState S :=
  match st.session, is_session_valid st now with
  | some s, true => (s, st)
  | _, _ =>
    let r := resolve ()
    (r.1, { session := some r.1, cache_expiry := r.2 })

/-- C7.  Session expiry safety buffer: the cached session is reused
exactly when it exists and either carries no expiry timestamp or its
expiry is strictly later than `now + 5 minutes`; otherwise a fresh session
is transparently resolved; consequently (given that freshly resolved
sessions do not expire within the buffer, as with one-hour STS
credentials) `get_session` never returns a session within the 5-minute
buffer of its recorded expiry. -/
theorem C7_session_expiry_buffer {S : Type} (st : SessionState S)
    (resolve : Unit → S × Option ℚ) (now : ℚ)
    (hres : ∀ e : ℚ, (resolve ()).2 = some e → now + 300 < e) :
    (is_session_valid st now = true ↔ st.session.isSome = true ∧
      (st.cache_expiry = none ∨ ∃ e, st.cache_expiry = some e ∧ now + 300 < e)) ∧
    (∀ s : S, st.session = some s → is_session_valid st now = true →
      get_session st resolve now = (s, st)) ∧
    (is_session_valid st now = false →
      get_session st resolve now
        = ((resolve ()).1, ⟨some (resolve ()).1, (resolve ()).2⟩)) ∧
    ((get_session st resolve now).2.cache_expiry = none ∨
      ∃ e, (get_session st resolve now).2.cache_expiry = some e ∧ now + 300 < e) := by
  refine ⟨?_, ?_, ?_, ?_⟩
  · cases hs : st.session with
    | none => simp [is_session_valid, hs]
    | some s =>
      cases he : st.cache_expiry with
      | none => simp [is_session_valid, expiryOk, hs, he]
      | some e => simp [is_session_valid, expiryOk, hs, he]
  · intro s hs hv
    simp only [get_session, hs, hv]
  · intro hv
    cases hs : st.session with
    | none => simp only [get_session, hs, hv]
    | some s => simp only [get_session, hs, hv]
  · by_cases hv : is_session_valid st now = true
    · cases hs : st.session with
      | none => simp [is_session_valid, hs] at hv
      | some s =>
        cases he : st.cache_expiry with
        | none =>
          simp only [get_session, hs, hv]
          exact Or.inl he
        | some e =>
          have hlt : now + 300 < e := by
            simp [is_session_valid, expiryOk, hs, he] at hv
            exact hv
          simp only [get_session, hs, hv]
          exact Or.inr ⟨e, he, hlt⟩
    · have hv' : is_session_valid st now = false := eq_false_of_ne_true hv
      have hout : (get_session st resolve now).2.cache_expiry = (resolve ()).2 := by
        cases hs : st.session with
        | none => simp only [get_session, hs, hv']
        | some s => simp only [get_session, hs, hv']
      rw [hout]
      cases hr : (resolve ()).2 with
      | none => exact Or.inl rfl
      | some e => exact Or.inr ⟨e, rfl, hres e hr⟩

/-- Witness for C7: a session expiring at time 1000 is reused at time 0
(buffer 300 < 1000). -/
theorem C7_witness :
    get_session (⟨some "sess", some 1000⟩ : SessionState String)
      (fun _ => ("fresh", some 4000)) 0 = ("sess", ⟨some "sess", some 1000⟩) :=
  (C7_session_expiry_buffer ⟨some "sess", some 1000⟩ (fun _ => ("fresh", some 4000)) 0
    (fun e he => by
      have he' : e = 4000 := by simpa using he.symm
      rw [he']; norm_num)).2.1 "sess" rfl
    (by simp [is_session_valid, expiryOk]; norm_num)

/-! ## org_accounts.py : account listing with filtering and caching -/

structure OrgSettings where
  single_account_mode : Bool
  org_allowlist : List String
  org_exclude : List String
  org_cache_ttl : ℕ
  deriving Repr, DecidableEq

/-- A raw account record from the paginated `list_accounts` call; every
field is read with `.get(...)` and may be absent. -/
structure RawAccount where
  id : Option String
  name : Option String
  email : Option String
  status : Option String
  deriving Repr, DecidableEq

/-- The `{'id': ..., 'name': ..., 'email': ...}` dict built per account. -/
structure AcctDict where
  id : Option String
  name : Option String
  email : Option String
  deriving Repr, DecidableEq

structure OrgAccountCache where
  cached : Option (List AcctDict)
  expiry : Option ℚ
  deriving Repr, DecidableEq

/-- `OrganizationAccountCache.get` (`org_accounts.py` lines 35-38):
`if self._cached and self._expiry and utcnow() < self._expiry` — note a
cached empty list is falsy in Python and therefore never served. -/
def orgCache_get (st : OrgAccountCache) (now : ℚ) : Option (List AcctDict) :=
  match st.cached, st.expiry with
  | some l, some e => if l ≠ [] ∧ now < e then some l else none
  | _, _ => none

def orgCache_set (st : OrgAccountCache) (accounts : List AcctDict) (ttl : ℕ) (now : ℚ) :
    OrgAccountCache :=
  { st with cached := some accounts, expiry := some (now + ttl) }

/-- Python `acct_id in lst` where `acct_id` may be `None`. -/
def optMem (x : Option String) (l : List String) : Bool :=
  match x with
  | some s => l.contains s
  | none => false

/-- The paginated filtering loop of `list_org_accounts` (`org_accounts.py`
lines 74-89): skip non-`ACTIVE` accounts, apply the allowlist when
non-empty, then the exclude list, and append the kept dicts in order. -/
def collectAccounts (s : OrgSettings) (pages : List (List RawAccount)) : List AcctDict :=
  pages.foldl (fun accounts page =>
    page.foldl (fun accounts acct =>
      if acct.status ≠ some "ACTIVE" then accounts
      else if s.org_allowlist ≠ [] ∧ optMem acct.id s.org_allowlist = false then accounts
      else if optMem acct.id s.org_exclude then accounts
      else accounts ++ [⟨acct.id, acct.name, acct.email⟩]) accounts) []

/-- The filter predicate the loop implements. -/
def keepAccount (s : OrgSettings) (acct : RawAccount) : Bool :=
  acct.status == some "ACTIVE"
    && (s.org_allowlist.isEmpty || optMem acct.id s.org_allowlist)
    && !optMem acct.id s.org_exclude

/-- `list_org_accounts` (`org_accounts.py` lines 48-93).  `ident` is the
outcome of the `sts.get_caller_identity()` call (only made in
single-account mode), `orgAccessible` is whether building the
organizations client succeeds, and `pages` are the pages the
`list_accounts` paginator would yield.  Returns the account list and the
updated process-wide cache. -/
def list_org_accounts (s : OrgSettings) (ident : Except Unit (Option String))
    (cacheSt : OrgAccountCache) (orgAccessible : Bool)
    (pages : List (List RawAccount)) (now : ℚ) : List AcctDict × OrgAccountCache :=
  if s.single_account_mode then
    match ident with
    | .ok acct_id => ([⟨acct_id, some "current", none⟩], cacheSt)
    | .error _ => ([], cacheSt)
  else
    match orgCache_get cacheSt now with
    | some cached => (cached, cacheSt)
    | none =>
      if !orgAccessible then ([], cacheSt)
      else
        let accounts := collectAccounts s pages
        let ttl := if s.org_cache_ttl = 0 then 1800 else s.org_cache_ttl
        (accounts, orgCache_set cacheSt accounts ttl now)

lemma collectAccounts_inner (s : OrgSettings) (page : List RawAccount)
    (acc : List AcctDict) :
    page.foldl (fun accounts acct =>
      if acct.status ≠ some "ACTIVE" then accounts
      else if s.org_allowlist ≠ [] ∧ optMem acct.id s.org_allowlist = false then accounts
      else if optMem acct.id s.org_exclude then accounts
      else accounts ++ [⟨acct.id, acct.name, acct.email⟩]) acc
    = acc ++ (page.filter (keepAccount s)).map (fun a => ⟨a.id, a.name, a.email⟩) := by
  induction page generalizing acc with
  | nil => simp
  | cons a t ih =>
    rw [List.foldl_cons, List.filter_cons]
    by_cases h1 : a.status ≠ some "ACTIVE"
    · rw [if_pos h1, ih]
      have hk : keepAccount s a = false := by
        simp [keepAccount, beq_eq_false_iff_ne.mpr h1]
      rw [hk]
      simp
    · push_neg at h1
      rw [if_neg (not_not.mpr h1)]
      by_cases h2 : s.org_allowlist ≠ [] ∧ optMem a.id s.org_allowlist = false
      · rw [if_pos h2, ih]
        have hk : keepAccount s a = false := by
          have hie : s.org_allowlist.isEmpty = false := by
            simpa [List.isEmpty_iff] using h2.1
          simp [keepAccount, hie, h2.2]
        rw [hk]
        simp
      · rw [if_neg h2]
        by_cases h3 : optMem a.id s.org_exclude = true
        · rw [if_pos h3, ih]
          have hk : keepAccount s a = false := by
            simp [keepAccount, h3]
          rw [hk]
          simp
        · rw [if_neg h3, ih]
          have hk : keepAccount s a = true := by
            rw [Bool.not_eq_true] at h3
            rcases not_and_or.mp h2 with h2' | h2'
            · rw [not_not] at h2'
              simp [keepAccount, h1, h3, List.isEmpty_iff, h2']
            · rw [Bool.not_eq_false] at h2'
              simp [keepAccount, h1, h3, h2']
          rw [hk]
          simp

lemma collectAccounts_go (s : OrgSettings) (pages : List (List RawAccount))
    (acc : List AcctDict) :
    pages.foldl (fun accounts page =>
      page.foldl (fun accounts acct =>
        if acct.status ≠ some "ACTIVE" then accounts
        else if s.org_allowlist ≠ [] ∧ optMem acct.id s.org_allowlist = false then accounts
        else if optMem acct.id s.org_exclude then accounts
        else accounts ++ [⟨acct.id, acct.name, acct.email⟩]) accounts) acc
      = acc ++ (pages.flatten.filter (keepAccount s)).map
          (fun a => (⟨a.id, a.name, a.email⟩ : AcctDict)) := by
  induction pages generalizing acc with
  | nil => simp
  | cons p ps ih =>
    rw [List.foldl_cons, collectAccounts_inner, ih, List.flatten_cons, List.filter_append,
      List.map_append, List.append_assoc]

lemma collectAccounts_eq (s : OrgSettings) (pages : List (List RawAccount)) :
    collectAccounts s pages
      = (pages.flatten.filter (keepAccount s)).map
          (fun a => (⟨a.id, a.name, a.email⟩ : AcctDict)) := by
  rw [collectAccounts, collectAccounts_go]
  exact List.nil_append _

lemma orgCache_get_none_cached (st : OrgAccountCache) (now : ℚ)
    (hc : st.cached = none) : orgCache_get st now = none := by
  rw [orgCache_get, hc]

lemma orgCache_get_none_expiry (st : OrgAccountCache) (now : ℚ)
    (he : st.expiry = none) : orgCache_get st now = none := by
  rw [orgCache_get, he]
  cases st.cached <;> rfl

lemma orgCache_get_eq (l0 : List AcctDict) (e : ℚ) (st : OrgAccountCache) (now : ℚ)
    (hc : st.cached = some l0) (he : st.expiry = some e) :
    orgCache_get st now = if l0 ≠ [] ∧ now < e then some l0 else none := by
  rw [orgCache_get, hc, he]

/-- C8 (amended).  Account listing (`org_accounts.py` lines 28-93): in
single-account mode the result is the single current caller account and
neither the cache nor the organization listing is consulted; otherwise a
fresh *non-empty* cached list is returned as-is (a cached empty list is
falsy in Python and gets refetched); and on a cache miss the function
pages through the organization listing, keeps exactly the `ACTIVE`
accounts passing the allowlist (when non-empty) and not in the exclude
list, and caches that filtered result under `org_cache_ttl or 1800`
seconds. -/
theorem C8_list_org_accounts (s : OrgSettings) (ident : Except Unit (Option String))
    (cacheSt : OrgAccountCache) (orgAccessible : Bool)
    (pages : List (List RawAccount)) (now : ℚ) :
    (s.single_account_mode = true →
      (∀ pages' : List (List RawAccount),
        list_org_accounts s ident cacheSt orgAccessible pages now
          = list_org_accounts s ident cacheSt orgAccessible pages' now) ∧
      (list_org_accounts s ident cacheSt orgAccessible pages now).2 = cacheSt ∧
      (∀ aid : Option String, ident = .ok aid →
        (list_org_accounts s ident cacheSt orgAccessible pages now).1
          = [⟨aid, some "current", none⟩])) ∧
    (∀ l : List AcctDict, orgCache_get cacheSt now = some l ↔
      (cacheSt.cached = some l ∧ l ≠ [] ∧ ∃ e, cacheSt.expiry = some e ∧ now < e)) ∧
    (s.single_account_mode = false →
      ∀ l : List AcctDict, orgCache_get cacheSt now = some l →
        list_org_accounts s ident cacheSt orgAccessible pages now = (l, cacheSt)) ∧
    (s.single_account_mode = false → orgCache_get cacheSt now = none →
      orgAccessible = true →
      (list_org_accounts s ident cacheSt orgAccessible pages now).1
        = (pages.flatten.filter (keepAccount s)).map (fun a => ⟨a.id, a.name, a.email⟩) ∧
      (∀ d : AcctDict,
        d ∈ (list_org_accounts s ident cacheSt orgAccessible pages now).1 ↔
        ∃ acct ∈ pages.flatten, acct.status = some "ACTIVE" ∧
          (s.org_allowlist = [] ∨ optMem acct.id s.org_allowlist = true) ∧
          optMem acct.id s.org_exclude = false ∧
          d = ⟨acct.id, acct.name, acct.email⟩) ∧
      (list_org_accounts s ident cacheSt orgAccessible pages now).2
        = orgCache_set cacheSt
            (list_org_accounts s ident cacheSt orgAccessible pages now).1
            (if s.org_cache_ttl = 0 then 1800 else s.org_cache_ttl) now) := by
  refine ⟨?_, ?_, ?_, ?_⟩
  · intro hsingle
    refine ⟨?_, ?_, ?_⟩
    · intro pages'
      simp only [list_org_accounts, hsingle, if_true]
    · simp only [list_org_accounts, hsingle, if_true]
      cases ident <;> rfl
    · intro aid hid
      simp only [list_org_accounts, hsingle, if_true, hid]
  · intro l
    constructor
    · intro hg
      cases hc : cacheSt.cached with
      | none => rw [orgCache_get_none_cached cacheSt now hc] at hg; cases hg
      | some l0 =>
        cases he : cacheSt.expiry with
        | none => rw [orgCache_get_none_expiry cacheSt now he] at hg; cases hg
        | some e =>
          rw [orgCache_get_eq l0 e cacheSt now hc he] at hg
          by_cases hcond : l0 ≠ [] ∧ now < e
          · rw [if_pos hcond] at hg
            have hl : l0 = l := by simpa using hg
            exact ⟨congrArg some hl, hl ▸ hcond.1, e, rfl, hcond.2⟩
          · rw [if_neg hcond] at hg
            cases hg
    · rintro ⟨hc, hne, e, he, hlt⟩
      rw [orgCache_get_eq l e cacheSt now hc he, if_pos ⟨hne, hlt⟩]
  · intro hsingle l hg
    simp only [list_org_accounts, hsingle, Bool.false_eq_true, if_false, hg]
  · intro hsingle hg hacc
    have hres : list_org_accounts s ident cacheSt orgAccessible pages now
        = (collectAccounts s pages,
           orgCache_set cacheSt (collectAccounts s pages)
             (if s.org_cache_ttl = 0 then 1800 else s.org_cache_ttl) now) := by
      simp only [list_org_accounts, hsingle, Bool.false_eq_true, if_false, hg, hacc,
        Bool.not_true]
    refine ⟨by rw [hres, collectAccounts_eq], ?_, by rw [hres, collectAccounts_eq]⟩
    intro d
    rw [hres, collectAccounts_eq]
    simp only [List.mem_map, List.mem_filter]
    constructor
    · rintro ⟨a, ⟨ha, hk⟩, hd⟩
      simp only [keepAccount, Bool.and_eq_true, Bool.or_eq_true, beq_iff_eq,
        Bool.not_eq_eq_eq_not, Bool.not_true, List.isEmpty_iff] at hk
      exact ⟨a, ha, hk.1.1, hk.1.2, hk.2, hd.symm⟩
    · rintro ⟨a, ha, hst, hal, hex, hd⟩
      refine ⟨a, ⟨ha, ?_⟩, hd.symm⟩
      simp only [keepAccount, Bool.and_eq_true, Bool.or_eq_true, beq_iff_eq,
        Bool.not_eq_eq_eq_not, Bool.not_true, List.isEmpty_iff]
      exact ⟨⟨hst, hal⟩, hex⟩

/-- Counterexample to C8 as stated: a fresh cache holding the empty list
is not served (Python's truthiness check treats it as absent), the
organization listing is paged through instead. -/
theorem C8_counterexample :
    (list_org_accounts ⟨false, [], [], 0⟩ (Except.ok (some "111111111111"))
        ⟨some [], some 100⟩ true
        [[⟨some "222222222222", some "Prod", none, some "ACTIVE"⟩]] 0).1
      = [⟨some "222222222222", some "Prod", none⟩] ∧
    (⟨some [], some 100⟩ : OrgAccountCache).cached = some [] ∧
    ((0 : ℚ) < 100) := by
  refine ⟨?_, rfl, by norm_num⟩
  have hg : orgCache_get ⟨some [], some 100⟩ (0 : ℚ) = none := by
    rw [orgCache_get_eq [] 100 _ 0 rfl rfl, if_neg (by simp)]
  simp only [list_org_accounts, Bool.false_eq_true, if_false, hg, Bool.not_true]
  rfl

/-- Witness for C8: single-account mode returns the caller account. -/
theorem C8_witness :
    (list_org_accounts ⟨true, [], [], 0⟩ (Except.ok (some "444444444444"))
        ⟨none, none⟩ true [] 0).1
      = [⟨some "444444444444", some "current", none⟩] :=
  ((C8_list_org_accounts ⟨true, [], [], 0⟩ (Except.ok (some "444444444444"))
    ⟨none, none⟩ true [] 0).1 rfl).2.2 (some "444444444444") rfl

/-! ## anomaly_detection.py : Z-score detection

Float arithmetic is modelled exactly over `ℚ` up to the square root inside
`statistics.pstdev`, which is real-valued; `pstdev(values) == 0` is
equivalent to `pvariance(values) == 0` since the variance is
non-negative. -/

/-- `statistics.fmean`. -/
def fmean (l : List ℚ) : ℚ := l.sum / l.length

/-- `statistics.pvariance` (population variance). -/
def pvariance (l : List ℚ) : ℚ :=
  ((l.map (fun v => (v - fmean l) ^ 2)).sum) / l.length

/-- `_compute_zscores` (`anomaly_detection.py` lines 46-53): fewer than
two points or a zero standard deviation give all-zero scores; otherwise
each score is `(v - mean) / stdev` with `stdev = sqrt(pvariance)`. -/
noncomputable def computeZscores (l : List ℚ) : List ℝ :=
  if l.length < 2 then l.map (fun _ => 0)
  else if pvariance l = 0 then l.map (fun _ => 0)
  else l.map (fun v : ℚ =>
    ((v : ℝ) - ((fmean l : ℚ) : ℝ)) / Real.sqrt ((pvariance l : ℚ) : ℝ))

/-- The zscore branch of `CostAnomalyDetector.detect` (`anomaly_detection.py`
lines 104-113): index `i` of the series is flagged exactly when
`abs(zscores[i]) >= zscore_threshold`. -/
def zscoreFlagged (series : List (String × ℚ)) (threshold : ℝ) (i : ℕ) : Prop :=
  i < series.length ∧ threshold ≤ |(computeZscores (series.map Prod.snd)).getD i 0|

lemma getD_map_zero (l : List ℚ) (i : ℕ) : (l.map (fun _ => (0 : ℝ))).getD i 0 = 0 := by
  induction l generalizing i with
  | nil => rfl
  | cons a t ih =>
    cases i with
    | zero => rfl
    | succ j => exact ih j

lemma computeZscores_const_zero (l : List ℚ) (h : pvariance l = 0) (i : ℕ) :
    (computeZscores l).getD i 0 = 0 := by
  rw [computeZscores]
  by_cases h2 : l.length < 2
  · rw [if_pos h2, getD_map_zero]
  · rw [if_neg h2, if_pos h, getD_map_zero]

lemma getD_map_of_lt (l : List ℚ) (f : ℚ → ℝ) (i : ℕ) (h : i < l.length) :
    (l.map f).getD i 0 = f (l.getD i 0) := by
  induction l generalizing i with
  | nil => simp at h
  | cons a t ih =>
    cases i with
    | zero => rfl
    | succ j => exact ih j (by simpa using h)

/-- The spec's example series `[10, 11, 9, 10, 10, 50]`. -/
def series6 : List (String × ℚ) :=
  [("d0", 10), ("d1", 11), ("d2", 9), ("d3", 10), ("d4", 10), ("d5", 50)]

/-- The spec's constant series `[5, 5, 5, 5]`. -/
def constSeries : List (String × ℚ) := [("d0", 5), ("d1", 5), ("d2", 5), ("d3", 5)]

lemma sqrt2003_gt_44 : (44 : ℝ) < Real.sqrt 2003 := by
  rw [show (44 : ℝ) = Real.sqrt (44 ^ 2) from (Real.sqrt_sq (by norm_num)).symm]
  exact Real.sqrt_lt_sqrt (by norm_num) (by norm_num)

lemma sqrt2003_le_50 : Real.sqrt 2003 ≤ 50 := by
  rw [show (50 : ℝ) = Real.sqrt (50 ^ 2) from (Real.sqrt_sq (by norm_num)).symm]
  exact Real.sqrt_le_sqrt (by norm_num)

lemma sqrt2003_pos : (0 : ℝ) < Real.sqrt 2003 := lt_trans (by norm_num) sqrt2003_gt_44

lemma fmean_series6 : fmean (series6.map Prod.snd) = 50 / 3 := by
  show fmean [10, 11, 9, 10, 10, 50] = 50 / 3
  norm_num [fmean]

lemma pvar_series6 : pvariance (series6.map Prod.snd) = 2003 / 9 := by
  show pvariance [10, 11, 9, 10, 10, 50] = 2003 / 9
  norm_num [pvariance, fmean]

lemma pvar_const : pvariance (constSeries.map Prod.snd) = 0 := by
  show pvariance [5, 5, 5, 5] = 0
  norm_num [pvariance, fmean]

lemma sqrt_var6 : Real.sqrt (((2003 / 9 : ℚ) : ℝ)) = Real.sqrt 2003 / 3 := by
  have h9 : Real.sqrt 9 = 3 := by
    rw [show (9 : ℝ) = 3 ^ 2 by norm_num, Real.sqrt_sq (by norm_num)]
  rw [show ((2003 / 9 : ℚ) : ℝ) = (2003 : ℝ) / 9 by norm_num]
  rw [Real.sqrt_div (by norm_num : (0 : ℝ) ≤ 2003) 9, h9]

lemma zscore_small (v : ℝ) (hv : |v - 50 / 3| ≤ 23 / 3) :
    ¬ (2 ≤ |(v - 50 / 3) / (Real.sqrt 2003 / 3)|) := by
  have hpos : (0 : ℝ) < Real.sqrt 2003 / 3 := div_pos sqrt2003_pos (by norm_num)
  rw [not_le, abs_div, abs_of_pos hpos, div_lt_iff₀ hpos]
  nlinarith [sqrt2003_gt_44, hv]

lemma zscore_big : 2 ≤ |((50 : ℝ) - 50 / 3) / (Real.sqrt 2003 / 3)| := by
  have hpos : (0 : ℝ) < Real.sqrt 2003 / 3 := div_pos sqrt2003_pos (by norm_num)
  rw [abs_div, abs_of_pos hpos, abs_of_pos (by norm_num : (0 : ℝ) < 50 - 50 / 3),
    le_div_iff₀ hpos]
  nlinarith [sqrt2003_le_50]

/-- Counterexample to C6 as stated: at threshold `0` (which the detector
accepts), every point of the constant series is flagged — `abs(0) >= 0` —
so "nothing is flagged regardless of threshold" fails for non-positive
thresholds. -/
theorem C6_counterexample :
    pvariance (constSeries.map Prod.snd) = 0 ∧ zscoreFlagged constSeries 0 0 := by
  refine ⟨pvar_const, ?_, abs_nonneg _⟩
  show 0 < 4
  norm_num

/-- C6 (amended).  Z-score anomaly detection (`anomaly_detection.py` lines
46-53 and 104-113): with at least two points and non-zero variance, a
point is flagged exactly when `|value - mean| / stdev >= threshold` with
population mean and standard deviation; a constant series has all scores
zero and flags nothing for every positive threshold (at thresholds `<= 0`
every point is flagged since `abs(0) >= 0`); the series
`[10, 11, 9, 10, 10, 50]` at threshold `2.0` flags exactly the value `50`,
and the constant series `[5, 5, 5, 5]` at threshold `2.0` flags nothing. -/
theorem C6_zscore_detection (series : List (String × ℚ)) (t : ℝ) :
    (2 ≤ series.length → pvariance (series.map Prod.snd) ≠ 0 →
      ∀ i : ℕ, (zscoreFlagged series t i ↔ i < series.length ∧
        t ≤ |(((series.map Prod.snd).getD i 0 : ℚ) : ℝ)
              - ((fmean (series.map Prod.snd) : ℚ) : ℝ)|
            / Real.sqrt ((pvariance (series.map Prod.snd) : ℚ) : ℝ))) ∧
    (pvariance (series.map Prod.snd) = 0 →
      (∀ i : ℕ, (computeZscores (series.map Prod.snd)).getD i 0 = 0) ∧
      (0 < t → ∀ i : ℕ, ¬ zscoreFlagged series t i)) ∧
    (∀ i : ℕ, zscoreFlagged series6 2 i ↔ i = 5) ∧
    (∀ i : ℕ, ¬ zscoreFlagged constSeries 2 i) := by
  have key : ∀ (s' : List (String × ℚ)) (t' : ℝ), pvariance (s'.map Prod.snd) = 0 →
      0 < t' → ∀ i : ℕ, ¬ zscoreFlagged s' t' i := by
    intro s' t' hv ht i hf
    obtain ⟨-, habs⟩ := hf
    rw [computeZscores_const_zero _ hv i, abs_zero] at habs
    linarith
  refine ⟨?_, fun hv => ⟨fun i => computeZscores_const_zero _ hv i, key series t hv⟩,
    ?_, key constSeries 2 pvar_const (by norm_num)⟩
  · intro h2 hv i
    have hlen2 : ¬ (series.map Prod.snd).length < 2 := by
      rw [List.length_map]
      omega
    unfold zscoreFlagged
    rw [computeZscores, if_neg hlen2, if_neg hv]
    refine and_congr_right fun hi => ?_
    rw [getD_map_of_lt _ _ i (by rw [List.length_map]; exact hi)]
    rw [abs_div, abs_of_nonneg (Real.sqrt_nonneg _)]
  · intro i
    by_cases hi : i < 6
    · have hz : computeZscores (series6.map Prod.snd)
          = [(10 : ℚ), 11, 9, 10, 10, 50].map
              (fun v : ℚ => ((v : ℝ) - ((fmean (series6.map Prod.snd) : ℚ) : ℝ))
                / Real.sqrt ((pvariance (series6.map Prod.snd) : ℚ) : ℝ)) := by
        rw [computeZscores, if_neg (by norm_num [series6]),
          if_neg (by rw [pvar_series6]; norm_num)]
        rfl
      have hcast : ((fmean (series6.map Prod.snd) : ℚ) : ℝ) = 50 / 3 := by
        rw [fmean_series6]
        norm_num
      have hsq : Real.sqrt ((pvariance (series6.map Prod.snd) : ℚ) : ℝ)
          = Real.sqrt 2003 / 3 := by
        rw [pvar_series6, sqrt_var6]
      rw [hcast, hsq] at hz
      interval_cases i
      · simp only [zscoreFlagged, hz, List.map_cons, List.map_nil, List.getD_cons_zero]
        constructor
        · rintro ⟨-, habs⟩
          rw [show ((10 : ℚ) : ℝ) = 10 by norm_num] at habs
          exact absurd habs (zscore_small 10 (by rw [abs_le]; constructor <;> norm_num))
        · intro h5
          exact absurd h5 (by norm_num)
      · simp only [zscoreFlagged, hz, List.map_cons, List.map_nil, List.getD_cons_succ,
          List.getD_cons_zero]
        constructor
        · rintro ⟨-, habs⟩
          rw [show ((11 : ℚ) : ℝ) = 11 by norm_num] at habs
          exact absurd habs (zscore_small 11 (by rw [abs_le]; constructor <;> norm_num))
        · intro h5
          exact absurd h5 (by norm_num)
      · simp only [zscoreFlagged, hz, List.map_cons, List.map_nil, List.getD_cons_succ,
          List.getD_cons_zero]
        constructor
        · rintro ⟨-, habs⟩
          rw [show ((9 : ℚ) : ℝ) = 9 by norm_num] at habs
          exact absurd habs (zscore_small 9 (by rw [abs_le]; constructor <;> norm_num))
        · intro h5
          exact absurd h5 (by norm_num)
      · simp only [zscoreFlagged, hz, List.map_cons, List.map_nil, List.getD_cons_succ,
          List.getD_cons_zero]
        constructor
        · rintro ⟨-, habs⟩
          rw [show ((10 : ℚ) : ℝ) = 10 by norm_num] at habs
          exact absurd habs (zscore_small 10 (by rw [abs_le]; constructor <;> norm_num))
        · intro h5
          exact absurd h5 (by norm_num)
      · simp only [zscoreFlagged, hz, List.map_cons, List.map_nil, List.getD_cons_succ,
          List.getD_cons_zero]
        constructor
        · rintro ⟨-, habs⟩
          rw [show ((10 : ℚ) : ℝ) = 10 by norm_num] at habs
          exact absurd habs (zscore_small 10 (by rw [abs_le]; constructor <;> norm_num))
        · intro h5
          exact absurd h5 (by norm_num)
      · simp only [zscoreFlagged, hz, List.map_cons, List.map_nil, List.getD_cons_succ,
          List.getD_cons_zero]
        constructor
        · intro _
          trivial
        · rintro -
          refine ⟨by norm_num [series6], ?_⟩
          rw [show ((50 : ℚ) : ℝ) = 50 by norm_num]
          exact zscore_big
    · constructor
      · rintro ⟨hlen, -⟩
        exact absurd hlen hi
      · intro h5
        rw [h5] at hi
        exact absurd (by norm_num) hi

/-- Witness for C6: the spike at index 5 of the example series is
flagged at threshold 2. -/
theorem C6_witness : zscoreFlagged series6 2 5 :=
  ((C6_zscore_detection series6 2).2.2.1 5).mpr rfl

end FinOps
